import Mathlib

/-!
Verification of the two-lane one-time-pad protocol (src/protocol.py).

The protocol class `OneTimePadProtocol` is embedded shallowly:
its mutable object state becomes the structure `Protocol`, and each
method becomes a state-passing function returning its result together
with the state after the call.  Python exceptions become the error
side of `Except`; Python list indexing (including its negative-index
wraparound and its `IndexError`) is embedded by `pyGetElem`.
-/

namespace TwoLaneOTP

/-- The four fixed party roles, the keys of the `parties` dict in
`OneTimePadProtocol.__init__`. -/
inductive Party
  | alice
  | charlie
  | bob
  | ellen
deriving DecidableEq, Fintype

/-- The exceptions the methods of `OneTimePadProtocol` can raise:
`exhaustedAllocation` is `ValueError("No available pads for ...")`,
`secrecyViolation` is `ValueError("Secrecy condition violated")`, and
`indexError` is Python's `IndexError` from list subscription. -/
inductive Err
  | exhaustedAllocation
  | secrecyViolation
  | indexError
deriving DecidableEq

/-- Python `range(a, b, s)` for a positive step `s`:
the values `a + k*s` for `k` below `ceil((b - a) / s)`. -/
def rangeUp (a b s : Nat) : List Nat :=
  (List.range ((b - a + s - 1) / s)).map (fun k => a + k * s)

/-- Python `range(a, b, -s)` for a positive `s` (descending range):
the values `a - k*s` for `k` below `ceil((a - b) / s)`. -/
def rangeDown (a b s : Nat) : List Nat :=
  (List.range ((a - b + s - 1) / s)).map (fun k => a - k * s)

/-- The pad-index queues built in `__init__`:
Alice `range(2, n, 2)`, Charlie `range(1, n, 2)`,
Bob `range(n, 0, -2)`, Ellen `range(n-1, 0, -2)`. -/
def allocationSeq (n : Nat) : Party → List Nat
  | .alice => rangeUp 2 n 2
  | .charlie => rangeUp 1 n 2
  | .bob => rangeDown n 0 2
  | .ellen => rangeDown (n - 1) 0 2

/-- The object state of `OneTimePadProtocol`: the constructor arguments,
the pad list, the per-party index queues and the `last_used_pad` dict. -/
structure Protocol where
  n : Nat
  L : Nat
  d : Int
  pad_sequence : List Nat
  parties : Party → List Nat
  last_used_pad : Party → Int

/-- `OneTimePadProtocol.__init__`.  The source draws `pad_sequence` from
`random.getrandbits(L)`; the random list is passed in as `pads`
(its length is `n` in the source). -/
def mkProtocol (n L : Nat) (d : Int) (pads : List Nat) : Protocol :=
  { n := n
    L := L
    d := d
    pad_sequence := pads
    parties := allocationSeq n
    last_used_pad := fun _ => -1 }

/-- Python list subscription `xs[i]`: indices in `[0, len)` read directly,
indices in `[-len, 0)` wrap from the end, anything else raises
`IndexError` (here: `none`). -/
def pyGetElem (xs : List Nat) (i : Int) : Option Nat :=
  if 0 ≤ i ∧ i < (xs.length : Int) then xs.get? i.toNat
  else if -(xs.length : Int) ≤ i ∧ i < 0 then xs.get? ((xs.length : Int) + i).toNat
  else none

/-- `OneTimePadProtocol.xor_encrypt`. -/
def xor_encrypt (message pad : Nat) : Nat :=
  message ^^^ pad

/-- `OneTimePadProtocol.xor_decrypt`. -/
def xor_decrypt (ciphertext pad : Nat) : Nat :=
  ciphertext ^^^ pad

/-- `OneTimePadProtocol.send_message`.  An empty queue raises the
"No available pads" `ValueError` before any mutation; otherwise the head
`pad_index` is popped and `last_used_pad[sender]` updated, and only then
is `pad_sequence[pad_index]` read, so an out-of-range popped index raises
`IndexError` with the pop and the `last_used_pad` update already applied. -/
def send_message (s : Protocol) (sender : Party) (message : Nat) :
    Except Err (Nat × Nat) × Protocol :=
  match s.parties sender with
  | [] => (.error .exhaustedAllocation, s)
  | pad_index :: rest =>
    let s1 : Protocol :=
      { s with
        parties := fun p => if p = sender then rest else s.parties p
        last_used_pad := fun p => if p = sender then (pad_index : Int) else s.last_used_pad p }
    match pyGetElem s.pad_sequence (pad_index : Int) with
    | none => (.error .indexError, s1)
    | some pad => (.ok (xor_encrypt message pad, pad_index), s1)

/-- `OneTimePadProtocol.get_message`: reads `pad_sequence[pad_index]`
and XORs; the method body performs no assignment, so the state after the
call is the state before it. -/
def get_message (s : Protocol) (ciphertext : Nat) (pad_index : Int) :
    Except Err Nat × Protocol :=
  match pyGetElem s.pad_sequence pad_index with
  | none => (.error .indexError, s)
  | some pad => (.ok (xor_decrypt ciphertext pad), s)

/-- Iteration order of the `parties` dict (insertion order). -/
def partyList : List Party :=
  [.alice, .charlie, .bob, .ellen]

/-- `OneTimePadProtocol.enforce_constraints`: raises the secrecy
`ValueError` when some other party trails the sender by more than `d`;
the body performs no assignment, so the state is returned unchanged. -/
def enforce_constraints (s : Protocol) (sender : Party) :
    Except Err Unit × Protocol :=
  if partyList.any (fun party =>
      decide (party ≠ sender) &&
      decide (s.last_used_pad sender - s.last_used_pad party > s.d))
  then (.error .secrecyViolation, s)
  else (.ok (), s)

/-- `k` consecutive `send_message` calls by the same sender, threading
the object state (each call mutates the state even when it raises after
the pop). -/
def sendTimes (s : Protocol) (sender : Party) (message : Nat) : Nat → Protocol
  | 0 => s
  | k + 1 => sendTimes (send_message s sender message).2 sender message k

/-! ## Helper lemmas -/

theorem mem_rangeUp {a b s i : Nat} :
    i ∈ rangeUp a b s ↔ ∃ k, k < (b - a + s - 1) / s ∧ a + k * s = i := by
  simp [rangeUp, List.mem_map, List.mem_range]

theorem mem_rangeDown {a b s i : Nat} :
    i ∈ rangeDown a b s ↔ ∃ k, k < (a - b + s - 1) / s ∧ a - k * s = i := by
  simp [rangeDown, List.mem_map, List.mem_range]

theorem pyGetElem_eq_none {xs : List Nat} {i : Int} :
    pyGetElem xs i = none ↔ (i < -(xs.length : Int) ∨ (xs.length : Int) ≤ i) := by
  unfold pyGetElem
  split_ifs with h1 h2
  · have hlt : i.toNat < xs.length := by omega
    simp [List.get?_eq_none]
    omega
  · have hlt : ((xs.length : Int) + i).toNat < xs.length := by omega
    simp [List.get?_eq_none]
    omega
  · simp
    omega

theorem pyGetElem_natCast (xs : List Nat) (j : Nat) :
    pyGetElem xs (j : Int) = xs.get? j := by
  unfold pyGetElem
  split_ifs with h1 h2
  · simp
  · omega
  · simp [List.get?_eq_none]
    omega

theorem mem_partyList (p : Party) : p ∈ partyList := by
  cases p <;> simp [partyList]

theorem send_message_parties (s : Protocol) (sender : Party) (m : Nat) :
    (send_message s sender m).2.parties sender = (s.parties sender).tail := by
  unfold send_message
  rcases hq : s.parties sender with _ | ⟨x, rest⟩
  · simp [hq]
  · rcases hg : pyGetElem s.pad_sequence (x : Int) with _ | pad <;> simp [hq, hg]

theorem sendTimes_parties (s : Protocol) (sender : Party) (m k : Nat) :
    (sendTimes s sender m k).parties sender = (s.parties sender).drop k := by
  induction k generalizing s with
  | zero => simp [sendTimes]
  | succ k ih =>
    rw [sendTimes, ih, send_message_parties, ← List.drop_one, List.drop_drop]
    simp [Nat.add_comm]

/-! ## Claim theorems -/

/-- C2 counterexample: the claim that every allocated index is `< n` fails
at `n = 10`, where Bob's queue `range(10, 0, -2)` starts with the index
`10` itself, which is not below `10`. -/
theorem C2_counterexample :
    10 ∈ allocationSeq 10 Party.bob ∧ ¬ (10 < 10) := by
  decide

/-- C2 amended: every index in any party's allocation sequence satisfies
`1 ≤ index ≤ n`, and for every party other than Bob it also satisfies
`index < n`; Bob's queue alone contains the out-of-range index `n`. -/
theorem C2_amended (n : Nat) (p : Party) (i : Nat)
    (h : i ∈ allocationSeq n p) :
    1 ≤ i ∧ i ≤ n ∧ (p ≠ Party.bob → i < n) := by
  cases p
  · rw [allocationSeq, mem_rangeUp] at h
    obtain ⟨k, hk, rfl⟩ := h
    refine ⟨by omega, by omega, fun _ => by omega⟩
  · rw [allocationSeq, mem_rangeUp] at h
    obtain ⟨k, hk, rfl⟩ := h
    refine ⟨by omega, by omega, fun _ => by omega⟩
  · rw [allocationSeq, mem_rangeDown] at h
    obtain ⟨k, hk, rfl⟩ := h
    exact ⟨by omega, by omega, fun hc => absurd rfl hc⟩
  · rw [allocationSeq, mem_rangeDown] at h
    obtain ⟨k, hk, rfl⟩ := h
    refine ⟨by omega, by omega, fun _ => by omega⟩

/-- C2 witness: at `n = 10` the index `2` sits in Alice's queue and the
amended bounds hold for it. -/
theorem C2_witness :
    2 ∈ allocationSeq 10 Party.alice ∧
      (1 ≤ 2 ∧ 2 ≤ 10 ∧ (Party.alice ≠ Party.bob → 2 < 10)) :=
  ⟨by decide, C2_amended 10 Party.alice 2 (by decide)⟩

/-- C3 counterexample: at `n = 2` the index `1` lies in both Charlie's
queue `range(1, 2, 2)` and Ellen's queue `range(1, 0, -2)`, so the four
sequences are not mutually disjoint for every `n`. -/
theorem C3_counterexample :
    Party.charlie ≠ Party.ellen ∧
      1 ∈ allocationSeq 2 Party.charlie ∧ 1 ∈ allocationSeq 2 Party.ellen := by
  decide

/-- C3 amended: the four allocation sequences are mutually disjoint
exactly when `n ≤ 1`; for every `n ≥ 2` two distinct parties share an
index (for even `n`, Charlie and Ellen share `1`; for odd `n`, Alice and
Ellen share `2`). -/
theorem C3_amended (n : Nat) :
    (∀ p q : Party, p ≠ q → ∀ i, i ∈ allocationSeq n p → i ∉ allocationSeq n q)
      ↔ n ≤ 1 := by
  constructor
  · intro hd
    by_contra hn
    push_neg at hn
    rcases Nat.even_or_odd n with ⟨r, hr⟩ | ⟨r, hr⟩
    · exact hd Party.charlie Party.ellen (by decide) 1
        (by rw [allocationSeq, mem_rangeUp]; exact ⟨0, by omega, by omega⟩)
        (by rw [allocationSeq, mem_rangeDown]; exact ⟨r - 1, by omega, by omega⟩)
    · exact hd Party.alice Party.ellen (by decide) 2
        (by rw [allocationSeq, mem_rangeUp]; exact ⟨0, by omega, by omega⟩)
        (by rw [allocationSeq, mem_rangeDown]; exact ⟨r - 1, by omega, by omega⟩)
  · intro hn p q hpq i hip hiq
    have hemp : ∀ r : Party, r ≠ Party.bob → ∀ j : Nat,
        j ∈ allocationSeq n r → False := by
      intro r hr j hj
      cases r
      · rw [allocationSeq, mem_rangeUp] at hj
        obtain ⟨k, hk, _⟩ := hj
        omega
      · rw [allocationSeq, mem_rangeUp] at hj
        obtain ⟨k, hk, _⟩ := hj
        omega
      · exact hr rfl
      · rw [allocationSeq, mem_rangeDown] at hj
        obtain ⟨k, hk, _⟩ := hj
        omega
    by_cases hp : p = Party.bob
    · subst hp
      exact hemp q (fun hq => hpq hq.symm) i hiq
    · exact hemp p hp i hip

/-- C8: XOR round-trip, `xor_decrypt (xor_encrypt m p) p = m` for all
`L`-bit messages and pads. -/
theorem C8_confirmed (L m p : Nat) (hm : m < 2 ^ L) (hp : p < 2 ^ L) :
    xor_decrypt (xor_encrypt m p) p = m := by
  simp [xor_encrypt, xor_decrypt, Nat.xor_assoc]

/-- C8 witness at `L = 8`, `m = 3`, `p = 5`. -/
theorem C8_witness :
    3 < 2 ^ 8 ∧ 5 < 2 ^ 8 ∧ xor_decrypt (xor_encrypt 3 5) 5 = 3 :=
  ⟨by decide, by decide, C8_confirmed 8 3 5 (by decide) (by decide)⟩

/-- C4 counterexample: `get_message` does not reject every index outside
`[0, n)`: Python's negative indexing makes `pad_index = -1` (with `n = 1`,
pads `[5]`, ciphertext `3`) return `3 XOR 5 = 6` instead of failing. -/
theorem C4_counterexample :
    ¬ (0 ≤ (-1 : Int) ∧ (-1 : Int) < 1) ∧
      (get_message (mkProtocol 1 8 0 [5]) 3 (-1)).1 = Except.ok 6 :=
  ⟨by decide, rfl⟩

/-- C4 amended: `get_message` fails with `IndexError` exactly when
`pad_index` is outside `[-n, n)` (negative indices in `[-n, 0)` wrap
around, Python-style); for `pad_index` in `[0, n)` it returns
`ciphertext XOR pad_sequence[pad_index]`. -/
theorem C4_amended (s : Protocol) (c : Nat) (i : Int)
    (h : s.pad_sequence.length = s.n) :
    ((get_message s c i).1 = Except.error Err.indexError ↔
        (i < -(s.n : Int) ∨ (s.n : Int) ≤ i))
    ∧ (0 ≤ i → i < (s.n : Int) →
        ∃ pad, s.pad_sequence.get? i.toNat = some pad ∧
          (get_message s c i).1 = Except.ok (xor_decrypt c pad)) := by
  rcases hg : pyGetElem s.pad_sequence i with _ | pad
  · have hout := pyGetElem_eq_none.mp hg
    constructor
    · rw [get_message, hg]
      simp
      omega
    · intro h0 h1
      omega
  · have hin : ¬ (i < -(s.pad_sequence.length : Int) ∨ (s.pad_sequence.length : Int) ≤ i) := by
      intro hc
      rw [pyGetElem_eq_none.mpr hc] at hg
      exact Option.noConfusion hg
    constructor
    · rw [get_message, hg]
      simp
      omega
    · intro h0 h1
      refine ⟨pad, ?_, by rw [get_message, hg]⟩
      rw [pyGetElem] at hg
      rw [if_pos ⟨h0, by omega⟩] at hg
      exact hg

/-- C4 witness: the amended statement instantiated at `n = 1`, pads `[5]`,
ciphertext `3`, `pad_index = 0`. -/
theorem C4_witness :
    (mkProtocol 1 8 0 [5]).pad_sequence.length = (mkProtocol 1 8 0 [5]).n ∧
      (((get_message (mkProtocol 1 8 0 [5]) 3 0).1 = Except.error Err.indexError ↔
          ((0 : Int) < -(((mkProtocol 1 8 0 [5]).n : Int)) ∨
            (((mkProtocol 1 8 0 [5]).n : Int)) ≤ 0))
        ∧ (0 ≤ (0 : Int) → (0 : Int) < ((mkProtocol 1 8 0 [5]).n : Int) →
            ∃ pad, (mkProtocol 1 8 0 [5]).pad_sequence.get? (0 : Int).toNat = some pad ∧
              (get_message (mkProtocol 1 8 0 [5]) 3 0).1 = Except.ok (xor_decrypt 3 pad))) :=
  ⟨rfl, C4_amended (mkProtocol 1 8 0 [5]) 3 0 rfl⟩

/-- C5: `enforce_constraints` raises the secrecy violation exactly when
some other party trails the sender by more than `d`, and it leaves the
protocol state unchanged. -/
theorem C5_confirmed (s : Protocol) (sender : Party) :
    ((enforce_constraints s sender).1 = Except.error Err.secrecyViolation ↔
      ∃ p : Party, p ≠ sender ∧ s.last_used_pad sender - s.last_used_pad p > s.d)
    ∧ ((enforce_constraints s sender).1 = Except.ok () ↔
      ¬ ∃ p : Party, p ≠ sender ∧ s.last_used_pad sender - s.last_used_pad p > s.d)
    ∧ (enforce_constraints s sender).2 = s := by
  refine ⟨?_, ?_, ?_⟩
  · rw [enforce_constraints]
    split_ifs with hany
    · simp only [List.any_eq_true, Bool.and_eq_true, decide_eq_true_eq] at hany
      obtain ⟨p, _, hp⟩ := hany
      exact ⟨fun _ => ⟨p, hp⟩, fun _ => rfl⟩
    · simp only [List.any_eq_true, Bool.and_eq_true, decide_eq_true_eq] at hany
      constructor
      · intro hc
        simp at hc
      · intro ⟨p, hp⟩
        exact absurd ⟨p, mem_partyList p, hp⟩ hany
  · rw [enforce_constraints]
    split_ifs with hany
    · simp only [List.any_eq_true, Bool.and_eq_true, decide_eq_true_eq] at hany
      obtain ⟨p, _, hp⟩ := hany
      constructor
      · intro hc
        simp at hc
      · intro hno
        exact absurd ⟨p, hp⟩ hno
    · simp only [List.any_eq_true, Bool.and_eq_true, decide_eq_true_eq] at hany
      exact ⟨fun _ => fun ⟨p, hp⟩ => absurd ⟨p, mem_partyList p, hp⟩ hany, fun _ => rfl⟩
  · rw [enforce_constraints]
    split_ifs <;> rfl

/-- C6: `send_message` fails with the empty-queue `ValueError` exactly
when the sender's queue is empty, and after as many `send_message` calls
as the queue initially holds the queue is empty and the next call fails
with that error. -/
theorem C6_confirmed (s : Protocol) (sender : Party) (m : Nat) :
    ((send_message s sender m).1 = Except.error Err.exhaustedAllocation ↔
      s.parties sender = [])
    ∧ (sendTimes s sender m (s.parties sender).length).parties sender = []
    ∧ (send_message (sendTimes s sender m (s.parties sender).length) sender m).1
        = Except.error Err.exhaustedAllocation := by
  have hempty : ∀ t : Protocol, t.parties sender = [] →
      (send_message t sender m).1 = Except.error Err.exhaustedAllocation := by
    intro t ht
    rw [send_message]
    rw [ht]
  have hdrop : (sendTimes s sender m (s.parties sender).length).parties sender = [] := by
    rw [sendTimes_parties, List.drop_length]
  refine ⟨?_, hdrop, hempty _ hdrop⟩
  rcases hq : s.parties sender with _ | ⟨x, rest⟩
  · simp [send_message, hq]
  · rcases hg : pyGetElem s.pad_sequence (x : Int) with _ | pad <;>
      simp [send_message, hq, hg]

/-- C7: when `send_message` returns normally, the returned index is the
old head of the sender's queue, the ciphertext is the message XORed with
the pad at that index, the head is removed, and `last_used_pad[sender]`
equals the returned index. -/
theorem C7_confirmed (s : Protocol) (sender : Party) (m ct idx : Nat)
    (h : (send_message s sender m).1 = Except.ok (ct, idx)) :
    (∃ rest, s.parties sender = idx :: rest ∧
        (send_message s sender m).2.parties sender = rest)
    ∧ (∃ pad, s.pad_sequence.get? idx = some pad ∧ ct = xor_encrypt m pad)
    ∧ (send_message s sender m).2.last_used_pad sender = (idx : Int) := by
  rcases hq : s.parties sender with _ | ⟨x, rest⟩
  · simp [send_message, hq] at h
  · rcases hg : pyGetElem s.pad_sequence (x : Int) with _ | pad
    · simp [send_message, hq, hg] at h
    · simp [send_message, hq, hg] at h
      obtain ⟨hct, hidx⟩ := h
      refine ⟨⟨rest, ?_, ?_⟩, ⟨pad, ?_, ?_⟩, ?_⟩
      · rw [hidx]
      · simp [send_message, hq, hg]
      · rw [← hidx, ← pyGetElem_natCast]
        exact hg
      · rw [← hct]
      · rw [← hidx]
        simp [send_message, hq, hg]

/-- C7 witness: first send by Alice at `n = 10`, pads `[0..9]`,
message `7`: it returns `(7 XOR 2, 2) = (5, 2)`. -/
theorem C7_witness :
    ((send_message (mkProtocol 10 8 0 [0, 1, 2, 3, 4, 5, 6, 7, 8, 9]) Party.alice 7).1
        = Except.ok (5, 2)) ∧
      ((∃ rest, (mkProtocol 10 8 0 [0, 1, 2, 3, 4, 5, 6, 7, 8, 9]).parties Party.alice
            = 2 :: rest ∧
          (send_message (mkProtocol 10 8 0 [0, 1, 2, 3, 4, 5, 6, 7, 8, 9]) Party.alice 7).2.parties
              Party.alice = rest)
        ∧ (∃ pad, (mkProtocol 10 8 0 [0, 1, 2, 3, 4, 5, 6, 7, 8, 9]).pad_sequence.get? 2
              = some pad ∧ 5 = xor_encrypt 7 pad)
        ∧ (send_message (mkProtocol 10 8 0 [0, 1, 2, 3, 4, 5, 6, 7, 8, 9]) Party.alice 7).2.last_used_pad
            Party.alice = ((2 : Nat) : Int)) :=
  ⟨rfl, C7_confirmed (mkProtocol 10 8 0 [0, 1, 2, 3, 4, 5, 6, 7, 8, 9]) Party.alice 7 5 2 rfl⟩

/-- C9: for a valid index, `get_message` returns the same message when
called twice with the same arguments, and it leaves the protocol state
(pads, queues and `last_used_pad`) unchanged. -/
theorem C9_confirmed (s : Protocol) (c : Nat) (i : Int)
    (hlen : s.pad_sequence.length = s.n) (h0 : 0 ≤ i) (h1 : i < (s.n : Int)) :
    (∃ msg, (get_message s c i).1 = Except.ok msg ∧
        (get_message ((get_message s c i).2) c i).1 = Except.ok msg)
    ∧ (get_message s c i).2 = s := by
  have hstate : (get_message s c i).2 = s := by
    rcases hg : pyGetElem s.pad_sequence i with _ | pad <;> simp [get_message, hg]
  rcases hg : pyGetElem s.pad_sequence i with _ | pad
  · exact absurd (pyGetElem_eq_none.mp hg) (by omega)
  · refine ⟨⟨xor_decrypt c pad, ?_, ?_⟩, hstate⟩
    · simp [get_message, hg]
    · rw [hstate]
      simp [get_message, hg]

/-- C9 witness at `n = 1`, pads `[5]`, ciphertext `3`, index `0`:
both reads return `6` and the state is unchanged. -/
theorem C9_witness :
    (mkProtocol 1 8 0 [5]).pad_sequence.length = (mkProtocol 1 8 0 [5]).n ∧
      (0 : Int) ≤ 0 ∧ (0 : Int) < ((mkProtocol 1 8 0 [5]).n : Int) ∧
      ((∃ msg, (get_message (mkProtocol 1 8 0 [5]) 3 0).1 = Except.ok msg ∧
          (get_message ((get_message (mkProtocol 1 8 0 [5]) 3 0).2) 3 0).1 = Except.ok msg)
        ∧ (get_message (mkProtocol 1 8 0 [5]) 3 0).2 = mkProtocol 1 8 0 [5]) :=
  ⟨rfl, by decide, by decide,
    C9_confirmed (mkProtocol 1 8 0 [5]) 3 0 rfl (by decide) (by decide)⟩

/-- C10: for every `n ≥ 1`, Bob's queue starts with the index `n`, which
is out of range for the pad list of length `n`, so Bob's first
`send_message` raises Python's `IndexError` rather than returning a
ciphertext or one of the declared protocol failures. -/
theorem C10_confirmed (n L : Nat) (d : Int) (pads : List Nat) (m : Nat)
    (hn : 1 ≤ n) (hlen : pads.length = n) :
    (allocationSeq n Party.bob).head? = some n
    ∧ (send_message (mkProtocol n L d pads) Party.bob m).1
        = Except.error Err.indexError := by
  have hhead : (allocationSeq n Party.bob).head? = some n := by
    rw [allocationSeq, rangeDown]
    rcases hc : (n - 0 + 2 - 1) / 2 with _ | c
    · exfalso
      omega
    · rw [List.range_succ_eq_map]
      simp
  refine ⟨hhead, ?_⟩
  obtain ⟨rest, hq⟩ : ∃ rest, allocationSeq n Party.bob = n :: rest := by
    rcases hl : allocationSeq n Party.bob with _ | ⟨x, rest⟩
    · rw [hl] at hhead
      simp at hhead
    · rw [hl] at hhead
      simp at hhead
      exact ⟨rest, by rw [hhead]⟩
  have hnone : pyGetElem pads (n : Int) = none := by
    rw [pyGetElem_natCast, List.get?_eq_none]
    omega
  simp [send_message, mkProtocol, hq, hnone]

/-- C10 witness at `n = 1`, pads `[0]`: Bob's queue head is `1` and his
first send fails with `IndexError`. -/
theorem C10_witness :
    1 ≤ 1 ∧ ([0] : List Nat).length = 1 ∧
      ((allocationSeq 1 Party.bob).head? = some 1 ∧
        (send_message (mkProtocol 1 8 0 [0]) Party.bob 0).1
          = Except.error Err.indexError) :=
  ⟨by decide, rfl, C10_confirmed 1 8 0 [0] 0 (by decide) rfl⟩

/-- C1: the code diverges from the claim.  In the scenario `n = 10`,
`L = 8`, `d = 0` (pads fixed to `[0..9]`), Alice's second `send_message`
returns a ciphertext `(7 XOR 4, 4) = (3, 4)` normally, because
`send_message` never invokes `enforce_constraints`; calling
`enforce_constraints` on the resulting state does raise the secrecy
violation, confirming the gap `4 - (-1) > 0` the claim describes. -/
theorem C1_code_divergence :
    ((send_message (mkProtocol 10 8 0 [0, 1, 2, 3, 4, 5, 6, 7, 8, 9]) Party.alice 7).1
        = Except.ok (5, 2))
    ∧ ((send_message
          (send_message (mkProtocol 10 8 0 [0, 1, 2, 3, 4, 5, 6, 7, 8, 9]) Party.alice 7).2
          Party.alice 7).1 = Except.ok (3, 4))
    ∧ ((enforce_constraints
          (send_message
            (send_message (mkProtocol 10 8 0 [0, 1, 2, 3, 4, 5, 6, 7, 8, 9]) Party.alice 7).2
            Party.alice 7).2 Party.alice).1 = Except.error Err.secrecyViolation) :=
  ⟨rfl, rfl, rfl⟩

end TwoLaneOTP
